import Mathlib

/-!
Verification of the booking-bot availability and reservation engine.

The definitions below are a shallow embedding of the repository's core
logic.  Time instants are modelled as integers (minutes); the bookings
table is a list of `Booking` records ordered by insertion, with
primary-key semantics (unique ids) maintained by the operations.

Source map:
* `Booking` record            — db.py, class Booking (lines 70-109)
* `free_sims_for_interval`    — booking_service.py (lines 35-60)
* `cleanup_expired_pending`   — booking_service.py (lines 14-33)
* `admin_approve`             — botsim.py (lines 1987-2126)
* `cancel_cmd`                — botsim.py (lines 2571-2603), identical
                                 guard logic in cancel_do_cb (390-411)
* `admin_reject`              — botsim.py (lines 2288-2315)
* `edit_apply`                — botsim.py (lines 1913-1970)
* `block_cmd`                 — botsim.py (lines 446-492)
* `book_create_hold`          — botsim.py book_qty_confirm_ask_contact
                                 (977-1018) + book_finalize (1405-1442)
                                 + booking_service.create_pending_booking
* `autoconfirm_step`          — botsim.py autoconfirm_worker body
                                 (lines 2749-2772), one booking
* `admin_mark_done`           — botsim.py (lines 2196-2247)
* `apply_bonus_for_booking`   — botsim.py (lines 1336-1377)
* `upsert_client_stats`       — services/bonus_runtime.py (lines 13-58)
* `normalize_phone`           — utils.py (lines 53-68)
* constants                   — config.py
-/

/-- Business constants from config.py. -/
def MAX_SIMS : Nat := 4

/-- Hold duration in minutes (config.py `HOLD_MINUTES = 30`). -/
def HOLD_MINUTES : Int := 30

/-- Per-user active booking limit (config.py line 46). -/
def MAX_ACTIVE_BOOKINGS_PER_USER : Nat := 6

/-- Tariff table from config.py: allowed durations with their prices. -/
def PRICES : List (Nat × Nat) := [(30, 390), (60, 690), (90, 990), (120, 1290)]

/-- Membership of a duration in the tariff table (`duration in PRICES`). -/
def durationAllowed (d : Nat) : Bool := (PRICES.map Prod.fst).contains d

/-- Booking status enum, per the db.py check constraint
`status IN ('pending','confirmed','cancelled','done','no_show','block')`. -/
inductive Status where
  | pending
  | confirmed
  | cancelled
  | done
  | no_show
  | block
deriving DecidableEq, Repr

/-- Statuses that occupy sims (booking_service.py / config.py
`ACTIVE_STATUSES = ("pending", "confirmed", "block")`). -/
def ACTIVE_STATUSES : List Status := [.pending, .confirmed, .block]

/-- A row of the bookings table (db.py class Booking).  Note: the model
in db.py has NO `bonus_applied` column; this record mirrors that. -/
structure Booking where
  id : Nat
  user_id : Nat
  client_name : Option String
  client_phone : Option String
  start_at : Int
  end_at : Int
  sims : Nat
  duration : Nat
  price : Nat
  status : Status
  expires_at : Option Int
deriving DecidableEq, Repr

/-- Row filter of the occupancy query in free_sims_for_interval:
status in ACTIVE_STATUSES, start_at < end, end_at > start, and
`Booking.id != exclude_id` when an exclusion id is passed. -/
def countsForQuery (qs qe : Int) (excl : Option Nat) (b : Booking) : Bool :=
  ACTIVE_STATUSES.contains b.status && decide (b.start_at < qe) &&
    decide (b.end_at > qs) &&
    (match excl with
     | some i => b.id != i
     | none => true)

/-- The `coalesce(sum(Booking.sims), 0)` aggregate of
free_sims_for_interval. -/
def busySims (l : List Booking) (qs qe : Int) (excl : Option Nat) : Nat :=
  ((l.filter (countsForQuery qs qe excl)).map Booking.sims).sum

/-- booking_service.free_sims_for_interval: free = MAX_SIMS - busy,
then `max(free, 0)`. -/
def free_sims_for_interval (l : List Booking) (qs qe : Int)
    (excl : Option Nat) : Int :=
  max ((MAX_SIMS : Int) - (busySims l qs qe excl : Int)) 0

/-- Per-row effect of the UPDATE in cleanup_expired_pending: a pending
booking with a non-null expires_at strictly before now becomes
cancelled; every other row is untouched. -/
def sweepOne (now : Int) (b : Booking) : Booking :=
  match b.expires_at with
  | some e => if b.status == .pending && e < now then { b with status := .cancelled } else b
  | none => b

/-- booking_service.cleanup_expired_pending applied to the whole table. -/
def cleanup_expired_pending (l : List Booking) (now : Int) : List Booking :=
  l.map (sweepOne now)

/-- Primary-key lookup (`session.get(Booking, bid)` /
`select(Booking).where(Booking.id == bid)`). -/
def findById (l : List Booking) (bid : Nat) : Option Booking :=
  l.find? (fun b => b.id == bid)

/-- Mutation of the row with primary key `bid` (ORM object mutation
followed by commit; the primary key is unique in the table). -/
def updateById (l : List Booking) (bid : Nat) (f : Booking → Booking) : List Booking :=
  l.map (fun b => if b.id == bid then f b else b)

/-- Status of the row with id `bid`, if present. -/
def statusOf (l : List Booking) (bid : Nat) : Option Status :=
  (findById l bid).map Booking.status

/-- Row mutation `b.status = 'cancelled'` (expiry left as it was). -/
def cancelSet (x : Booking) : Booking := { x with status := .cancelled }

/-- Row mutation `b.status = 'cancelled'; b.expires_at = None`. -/
def cancelClearSet (x : Booking) : Booking :=
  { x with status := .cancelled, expires_at := none }

/-- Row mutation `b.status = 'confirmed'; b.expires_at = None`. -/
def confirmSet (x : Booking) : Booking :=
  { x with status := .confirmed, expires_at := none }

/-- Row mutation of edit_apply lines 1948-1950: move the interval and
restart the hold timer; sims and duration are left untouched. -/
def moveSet (qs qe expiry : Int) (x : Booking) : Booking :=
  { x with start_at := qs, end_at := qe, expires_at := some expiry }

/-- The Python expression `(b.expires_at and b.expires_at < now)` of
admin_approve line 2009: false when expires_at is NULL. -/
def expiredFlag (b : Booking) (now : Int) : Bool :=
  match b.expires_at with
  | some e => e < now
  | none => false

/-- Outcome reported by admin_approve, matching its branch structure:
expired hold, pending confirmed, pending cancelled for lack of
capacity, or an idempotent return of the current status. -/
inductive ConfirmOutcome where
  | notFound
  | expiredCancelled
  | confirmedOk
  | noCapacity
  | unchanged (st : Status)
deriving DecidableEq, Repr

/-- botsim.admin_approve (lines 1994-2050): lock the row; if the hold
expired, cancel; else if pending, sum the sims of overlapping active
rows excluding self and confirm when `MAX_SIMS - taken >= b.sims`,
otherwise cancel; else leave everything unchanged. -/
def admin_approve (l : List Booking) (bid : Nat) (now : Int) :
    List Booking × ConfirmOutcome :=
  match findById l bid with
  | none => (l, .notFound)
  | some b =>
    if expiredFlag b now then
      (updateById l bid cancelSet, .expiredCancelled)
    else if b.status = .pending then
      if (MAX_SIMS : Int) - (busySims l b.start_at b.end_at (some b.id) : Int) ≥
          (b.sims : Int) then
        (updateById l bid confirmSet, .confirmedOk)
      else
        (updateById l bid cancelSet, .noCapacity)
    else
      (l, .unchanged b.status)

/-- Outcome of the user cancel command. -/
inductive CancelOutcome where
  | notFound
  | tooLate
  | alreadyCancelled
  | ok
deriving DecidableEq, Repr

/-- botsim.cancel_cmd (lines 2578-2601): not found (or foreign) row is
an error; then the too-late guard (`now >= start_at`) fires BEFORE the
already-cancelled check; otherwise the row is cancelled and its expiry
cleared. -/
def cancel_cmd (l : List Booking) (bid uid : Nat) (now : Int) :
    List Booking × CancelOutcome :=
  match findById l bid with
  | none => (l, .notFound)
  | some b =>
    if b.user_id ≠ uid then (l, .notFound)
    else if now ≥ b.start_at then (l, .tooLate)
    else if b.status = .cancelled then (l, .alreadyCancelled)
    else
      (updateById l bid cancelClearSet, .ok)

/-- Outcome of the admin reject button. -/
inductive RejectOutcome where
  | notFound
  | rejected
deriving DecidableEq, Repr

/-- botsim.admin_reject (lines 2295-2302): any found row is set to
cancelled unconditionally — no status guard, no time guard, and the
expiry field is left as it was. -/
def admin_reject (l : List Booking) (bid : Nat) : List Booking × RejectOutcome :=
  match findById l bid with
  | none => (l, .notFound)
  | some _ =>
    (updateById l bid cancelSet, .rejected)

/-- Outcome of the reschedule (edit) operation. -/
inductive EditOutcome where
  | notFound
  | notOwner
  | notPending
  | tooLate
  | slotTaken
  | ok
deriving DecidableEq, Repr

/-- botsim.edit_apply (lines 1924-1951): owner-only, pending-only,
only before the original start; re-checks capacity on the new interval
excluding self, then moves the interval and restarts the hold timer.
`duration` and `sims` arrive in the callback data; the booking's own
sims and duration fields are NOT updated (the flow passes the
booking's current values, see edit_open_cb lines 2510-2518). -/
def edit_apply (l : List Booking) (bid uid : Nat) (qs : Int)
    (duration sims : Nat) (now : Int) : List Booking × EditOutcome :=
  match findById l bid with
  | none => (l, .notFound)
  | some b =>
    if b.user_id ≠ uid then (l, .notOwner)
    else if b.status ≠ .pending then (l, .notPending)
    else if now ≥ b.start_at then (l, .tooLate)
    else
      if free_sims_for_interval l qs (qs + (duration : Int)) (some b.id) < (sims : Int) then
        (l, .slotTaken)
      else
        (updateById l bid (moveSet qs (qs + (duration : Int)) (now + HOLD_MINUTES)), .ok)

/-- System state: the bookings table plus the autoincrement counter. -/
structure SysState where
  bookings : List Booking
  next_id : Nat
deriving Repr

/-- Outcome of the hold-creation flow. -/
inductive CreateOutcome where
  | badParams
  | limitExceeded (cnt : Nat)
  | capacityExceeded
  | created (bid : Nat)
deriving DecidableEq, Repr

/-- Count of the user's active bookings, per the query of
book_qty_confirm_ask_contact lines 997-1006: status pending or
confirmed and end_at strictly in the future. -/
def activeCountForUser (l : List Booking) (uid : Nat) (now : Int) : Nat :=
  (l.filter (fun b =>
    b.user_id == uid && (b.status == .pending || b.status == .confirmed) &&
      decide (b.end_at > now))).length

/-- The hold-creation pipeline, sequentially composed:
parameter validation (botsim.py line 988), the per-user active-booking
limit (lines 996-1013), the capacity check (line 1016, re-run
identically at book_finalize line 1405 which is the deciding check in
a sequential run), then the insert of a pending row with
`expires_at = now + HOLD_MINUTES` (create_pending_booking). -/
def book_create_hold (s : SysState) (uid : Nat) (qs : Int)
    (dur sims price : Nat) (now : Int) (name phone : Option String) :
    SysState × CreateOutcome :=
  if ¬(durationAllowed dur && decide (1 ≤ sims) && decide (sims ≤ MAX_SIMS)) then
    (s, .badParams)
  else if activeCountForUser s.bookings uid now ≥ MAX_ACTIVE_BOOKINGS_PER_USER then
    (s, .limitExceeded (activeCountForUser s.bookings uid now))
  else if free_sims_for_interval s.bookings qs (qs + (dur : Int)) none < (sims : Int) then
    (s, .capacityExceeded)
  else
    ({ bookings := s.bookings ++
        [{ id := s.next_id, user_id := uid, client_name := name,
           client_phone := phone, start_at := qs, end_at := qs + (dur : Int),
           sims := sims, duration := dur, price := price,
           status := .pending, expires_at := some (now + HOLD_MINUTES) }],
       next_id := s.next_id + 1 },
      .created s.next_id)

/-- Outcome of the admin block command. -/
inductive BlockOutcome where
  | badParams
  | capacityExceeded
  | created (bid : Nat)
deriving DecidableEq, Repr

/-- botsim.block_cmd (lines 458-490): validate duration and sims,
check capacity on the interval, then insert a `block` row with no
holder and no expiry. -/
def block_cmd (s : SysState) (qs : Int) (dur sims : Nat) :
    SysState × BlockOutcome :=
  if ¬(durationAllowed dur && decide (1 ≤ sims) && decide (sims ≤ MAX_SIMS)) then
    (s, .badParams)
  else if free_sims_for_interval s.bookings qs (qs + (dur : Int)) none < (sims : Int) then
    (s, .capacityExceeded)
  else
    ({ bookings := s.bookings ++
        [{ id := s.next_id, user_id := 0,
           client_name := some "block", client_phone := none,
           start_at := qs, end_at := qs + (dur : Int), sims := sims,
           duration := dur, price := 0, status := .block, expires_at := none }],
       next_id := s.next_id + 1 },
      .created s.next_id)

/-- Body of botsim.autoconfirm_worker for a single candidate booking
(lines 2749-2772): re-load by id, skip unless still pending, skip if
the hold expired (lines 2758-2760), skip if short on sims, else
confirm and clear the expiry. -/
def autoconfirm_step (l : List Booking) (bid : Nat) (now : Int) : List Booking :=
  match findById l bid with
  | none => l
  | some b =>
    if b.status ≠ .pending then l
    else if expiredFlag b now then l
    else if free_sims_for_interval l b.start_at b.end_at (some b.id) < (b.sims : Int) then l
    else updateById l bid confirmSet

/-- The five ledger operations of the capacity claim, applied
sequentially. -/
inductive Op where
  | createHold (uid : Nat) (qs : Int) (dur sims price : Nat) (now : Int)
  | confirm (bid : Nat) (now : Int)
  | cancel (bid uid : Nat) (now : Int)
  | edit (bid uid : Nat) (qs now : Int)
  | blockIns (qs : Int) (dur sims : Nat)

/-- One step of the sequential system.  The edit operation reaches
edit_apply with the booking's own duration and sims, exactly as the
flow builds them into the callback data (edit_open_cb lines
2510-2518). -/
def applyOp (s : SysState) : Op → SysState
  | .createHold uid qs dur sims price now =>
      (book_create_hold s uid qs dur sims price now none none).1
  | .confirm bid now => { s with bookings := (admin_approve s.bookings bid now).1 }
  | .cancel bid uid now => { s with bookings := (cancel_cmd s.bookings bid uid now).1 }
  | .edit bid uid qs now =>
      match findById s.bookings bid with
      | some b =>
          { s with bookings := (edit_apply s.bookings bid uid qs b.duration b.sims now).1 }
      | none => s
  | .blockIns qs dur sims => (block_cmd s qs dur sims).1

/-- The empty ledger (autoincrement starts at 1). -/
def initState : SysState := { bookings := [], next_id := 1 }

/-- Run a sequence of operations from the empty ledger. -/
def runOps (ops : List Op) : SysState := ops.foldl applyOp initState

/-- Sims contributed by one row at instant `t`: its sims when the row
is active and its half-open interval contains `t`, else 0. -/
def contribAt (t : Int) (b : Booking) : Nat :=
  if ACTIVE_STATUSES.contains b.status && decide (b.start_at ≤ t) && decide (t < b.end_at)
  then b.sims else 0

/-- Total sims held at instant `t` across the ledger. -/
def occupancy (l : List Booking) (t : Int) : Nat := (l.map (contribAt t)).sum

/-! ### Sum and filter lemmas for the occupancy argument -/

theorem occupancy_cons (b : Booking) (l : List Booking) (t : Int) :
    occupancy (b :: l) t = contribAt t b + occupancy l t := by
  simp [occupancy]

theorem occupancy_append (l1 l2 : List Booking) (t : Int) :
    occupancy (l1 ++ l2) t = occupancy l1 t + occupancy l2 t := by
  simp [occupancy]

theorem busySims_cons (b : Booking) (l : List Booking) (qs qe : Int) (excl : Option Nat) :
    busySims (b :: l) qs qe excl =
      (if countsForQuery qs qe excl b then b.sims else 0) + busySims l qs qe excl := by
  simp only [busySims, List.filter_cons]
  split <;> simp

theorem busySims_append (l1 l2 : List Booking) (qs qe : Int) (excl : Option Nat) :
    busySims (l1 ++ l2) qs qe excl = busySims l1 qs qe excl + busySims l2 qs qe excl := by
  simp [busySims]

theorem contribAt_le_counts (b : Booking) {qs qe t : Int}
    (hqs : qs ≤ t) (hqe : t < qe) :
    contribAt t b ≤ if countsForQuery qs qe none b then b.sims else 0 := by
  unfold contribAt countsForQuery
  by_cases h1 : b.status ∈ ACTIVE_STATUSES
  · by_cases h2 : b.start_at ≤ t
    · by_cases h3 : t < b.end_at
      · have hs : b.start_at < qe := lt_of_le_of_lt h2 hqe
        have he : b.end_at > qs := lt_of_le_of_lt hqs h3
        simp [h1, h2, h3, hs, he]
      · simp [h3]
    · simp [h2]
  · simp [h1]

theorem occ_le_busySims (l : List Booking) {qs qe t : Int}
    (hqs : qs ≤ t) (hqe : t < qe) :
    occupancy l t ≤ busySims l qs qe none := by
  induction l with
  | nil => simp [occupancy, busySims]
  | cons b l ih =>
      rw [occupancy_cons, busySims_cons]
      exact Nat.add_le_add (contribAt_le_counts b hqs hqe) ih

theorem countsForQuery_some_of_ne (qs qe : Int) (bid : Nat) (b : Booking)
    (hb : b.id ≠ bid) :
    countsForQuery qs qe (some bid) b = countsForQuery qs qe none b := by
  unfold countsForQuery
  simp [hb]

theorem busySims_excl_eq_none (l : List Booking) (qs qe : Int) (bid : Nat)
    (h : ∀ x ∈ l, x.id ≠ bid) :
    busySims l qs qe (some bid) = busySims l qs qe none := by
  induction l with
  | nil => rfl
  | cons b l ih =>
      rw [busySims_cons, busySims_cons,
        ih (fun x hx => h x (List.mem_cons_of_mem _ hx)),
        countsForQuery_some_of_ne qs qe bid b (h b (List.mem_cons_self _ _))]

theorem contribAt_eq_sims {t : Int} {b : Booking} (h : contribAt t b ≠ 0) :
    b.start_at ≤ t ∧ t < b.end_at ∧ contribAt t b = b.sims ∧ 0 < b.sims := by
  unfold contribAt at h ⊢
  by_cases hcond : (ACTIVE_STATUSES.contains b.status && decide (b.start_at ≤ t) &&
      decide (t < b.end_at)) = true
  · rw [if_pos hcond] at h ⊢
    simp only [Bool.and_eq_true, decide_eq_true_eq] at hcond
    exact ⟨hcond.1.2, hcond.2, rfl, Nat.pos_of_ne_zero h⟩
  · rw [if_neg hcond] at h
    exact absurd rfl h

theorem contribAt_cancelled (t : Int) (b : Booking) :
    contribAt t { b with status := .cancelled } = 0 := by
  have h : Status.cancelled ∉ ACTIVE_STATUSES := by decide
  unfold contribAt
  simp [h]

theorem contribAt_cancelled_clear (t : Int) (b : Booking) :
    contribAt t { b with status := .cancelled, expires_at := none } = 0 := by
  have h : Status.cancelled ∉ ACTIVE_STATUSES := by decide
  unfold contribAt
  simp [h]

theorem contribAt_confirm (t : Int) (b : Booking) (hb : b.status = .pending) :
    contribAt t { b with status := .confirmed, expires_at := none } = contribAt t b := by
  have h1 : Status.confirmed ∈ ACTIVE_STATUSES := by decide
  have h2 : Status.pending ∈ ACTIVE_STATUSES := by decide
  unfold contribAt
  rw [hb]
  simp [h1, h2]

/-! ### Find and update lemmas -/

theorem find?_eq_some_split {α : Type} {p : α → Bool} {l : List α} {b : α}
    (h : l.find? p = some b) :
    ∃ l1 l2, l = l1 ++ b :: l2 ∧ (∀ x ∈ l1, p x = false) ∧ p b = true := by
  induction l with
  | nil => simp at h
  | cons a l ih =>
      by_cases hp : p a = true
      · rw [List.find?_cons_of_pos _ hp] at h
        obtain rfl : a = b := Option.some.inj h
        exact ⟨[], l, rfl, ⟨fun x hx => absurd hx (List.not_mem_nil x), hp⟩⟩
      · rw [List.find?_cons_of_neg _ hp] at h
        obtain ⟨l1, l2, rfl, h1, h2⟩ := ih h
        refine ⟨a :: l1, l2, rfl, ?_, h2⟩
        intro x hx
        rcases List.mem_cons.mp hx with rfl | hx
        · exact Bool.eq_false_iff.mpr hp
        · exact h1 x hx

theorem find?_append_cons_of_false {α : Type} (p : α → Bool) (l1 l2 : List α) (b : α)
    (h1 : ∀ x ∈ l1, p x = false) (hb : p b = true) :
    (l1 ++ b :: l2).find? p = some b := by
  induction l1 with
  | nil => simpa using List.find?_cons_of_pos l2 hb
  | cons a l ih =>
      have ha : ¬ p a = true := by
        rw [h1 a (List.mem_cons_self _ _)]; exact Bool.false_ne_true
      simpa [List.find?_cons_of_neg _ ha] using
        ih (fun x hx => h1 x (List.mem_cons_of_mem _ hx))

theorem map_eq_self_of_forall {α : Type} (l : List α) (g : α → α)
    (h : ∀ x ∈ l, g x = x) : l.map g = l := by
  induction l with
  | nil => rfl
  | cons a l ih =>
      rw [List.map_cons, h a (List.mem_cons_self a l),
        ih (fun x hx => h x (List.mem_cons_of_mem a hx))]

theorem updateById_split (l1 l2 : List Booking) (b : Booking) (bid : Nat)
    (f : Booking → Booking) (h1 : ∀ x ∈ l1, x.id ≠ bid) (h2 : ∀ x ∈ l2, x.id ≠ bid)
    (hb : b.id = bid) :
    updateById (l1 ++ b :: l2) bid f = l1 ++ f b :: l2 := by
  unfold updateById
  rw [List.map_append, List.map_cons]
  rw [map_eq_self_of_forall l1 _ (fun x hx => by simp [h1 x hx])]
  rw [map_eq_self_of_forall l2 _ (fun x hx => by simp [h2 x hx])]
  simp [hb]

theorem updateById_map_id (l : List Booking) (bid : Nat) (f : Booking → Booking)
    (hf : ∀ x, (f x).id = x.id) :
    (updateById l bid f).map Booking.id = l.map Booking.id := by
  induction l with
  | nil => rfl
  | cons a l ih =>
      simp only [updateById, List.map_cons] at ih ⊢
      rw [ih]
      congr 1
      split
      · exact hf a
      · rfl

theorem nodup_ids_right (l1 l2 : List Booking) (b : Booking)
    (hnd : ((l1 ++ b :: l2).map Booking.id).Nodup) :
    ∀ x ∈ l2, x.id ≠ b.id := by
  intro x hx h
  rw [List.map_append] at hnd
  have h2 : ((b :: l2).map Booking.id).Nodup := (List.Nodup.of_append_right hnd)
  rw [List.map_cons, List.nodup_cons] at h2
  exact h2.1 (List.mem_map.mpr ⟨x, hx, h⟩)

theorem idBounded_updateById (l : List Booking) (n bid : Nat) (f : Booking → Booking)
    (hf : ∀ x, (f x).id = x.id) (h : ∀ b ∈ l, b.id < n) :
    ∀ b ∈ updateById l bid f, b.id < n := by
  intro b hbmem
  obtain ⟨a, ha, rfl⟩ := List.mem_map.mp hbmem
  have hna := h a ha
  by_cases hc : (a.id == bid) = true
  · simpa [hc, hf] using hna
  · simpa [hc] using hna

theorem occupancy_map_le (l : List Booking) (g : Booking → Booking) (t : Int)
    (h : ∀ x ∈ l, contribAt t (g x) ≤ contribAt t x) :
    occupancy (l.map g) t ≤ occupancy l t := by
  induction l with
  | nil => exact le_refl _
  | cons a l ih =>
      rw [List.map_cons, occupancy_cons, occupancy_cons]
      exact Nat.add_le_add (h a (List.mem_cons_self _ _))
        (ih (fun x hx => h x (List.mem_cons_of_mem _ hx)))

/-! ### Arithmetic on the capacity guard -/

theorem busy_add_le_of_free_ge (l : List Booking) (qs qe : Int) (excl : Option Nat)
    (n : Nat) (h : ¬ free_sims_for_interval l qs qe excl < (n : Int)) (hn : 0 < n) :
    busySims l qs qe excl + n ≤ MAX_SIMS := by
  unfold free_sims_for_interval at h
  rcases le_total ((MAX_SIMS : Int) - (busySims l qs qe excl : Int)) 0 with h0 | h0
  · rw [max_eq_right h0] at h
    omega
  · rw [max_eq_left h0] at h
    omega

/-! ### The capacity invariant and its preservation -/

/-- Capacity property: at no instant does held capacity exceed the pool. -/
def CapOK (l : List Booking) : Prop := ∀ t : Int, occupancy l t ≤ MAX_SIMS

/-- Well-formedness carried through every operation: ids below the
autoincrement counter, primary-key uniqueness, and the capacity bound. -/
def GoodState (s : SysState) : Prop :=
  (∀ b ∈ s.bookings, b.id < s.next_id) ∧
    (s.bookings.map Booking.id).Nodup ∧ CapOK s.bookings

theorem capOK_insert (l : List Booking) (b : Booking) (hcap : CapOK l)
    (hfree : ¬ free_sims_for_interval l b.start_at b.end_at none < (b.sims : Int)) :
    CapOK (l ++ [b]) := by
  intro t
  rw [occupancy_append]
  have hb1 : occupancy [b] t = contribAt t b := by simp [occupancy]
  by_cases hc : contribAt t b = 0
  · rw [hb1, hc]
    simpa using hcap t
  · obtain ⟨h1, h2, h3, h4⟩ := contribAt_eq_sims hc
    have h5 := occ_le_busySims l h1 h2
    have h6 := busy_add_le_of_free_ge l b.start_at b.end_at none b.sims hfree h4
    rw [hb1, h3]
    omega

theorem goodState_insert (s : SysState) (b : Booking) (hid : b.id = s.next_id)
    (hg : GoodState s)
    (hfree : ¬ free_sims_for_interval s.bookings b.start_at b.end_at none < (b.sims : Int)) :
    GoodState { bookings := s.bookings ++ [b], next_id := s.next_id + 1 } := by
  obtain ⟨hbound, hnd, hcap⟩ := hg
  refine ⟨?_, ?_, ?_⟩
  · intro x hx
    rcases List.mem_append.mp hx with hx | hx
    · exact Nat.lt_succ_of_lt (hbound x hx)
    · rw [List.mem_singleton.mp hx, hid]
      exact Nat.lt_succ_self _
  · rw [List.map_append, List.nodup_append]
    refine ⟨hnd, List.nodup_singleton _, ?_⟩
    intro x hx hx2
    obtain ⟨a, ha, rfl⟩ := List.mem_map.mp hx
    have h1 := hbound a ha
    have h2 : a.id = b.id := by simpa using hx2
    omega
  · exact capOK_insert s.bookings b hcap hfree

theorem goodState_updateById_le (s : SysState) (bid : Nat) (f : Booking → Booking)
    (hf : ∀ x, (f x).id = x.id)
    (hle : ∀ x t, contribAt t (f x) ≤ contribAt t x)
    (hg : GoodState s) :
    GoodState { s with bookings := updateById s.bookings bid f } := by
  obtain ⟨hbound, hnd, hcap⟩ := hg
  refine ⟨idBounded_updateById _ _ _ f hf hbound, ?_, ?_⟩
  · show ((updateById s.bookings bid f).map Booking.id).Nodup
    rw [updateById_map_id _ _ _ hf]
    exact hnd
  · intro t
    have h1 : occupancy (updateById s.bookings bid f) t ≤ occupancy s.bookings t := by
      unfold updateById
      apply occupancy_map_le
      intro x _
      by_cases hc : (x.id == bid) = true
      · simpa [hc] using hle x t
      · simp [hc]
    exact le_trans h1 (hcap t)

theorem split_of_findById {l : List Booking} {bid : Nat} {b : Booking}
    (hfind : findById l bid = some b) (hnd : (l.map Booking.id).Nodup) :
    ∃ l1 l2, l = l1 ++ b :: l2 ∧ b.id = bid ∧
      (∀ x ∈ l1, x.id ≠ bid) ∧ (∀ x ∈ l2, x.id ≠ bid) := by
  unfold findById at hfind
  obtain ⟨l1, l2, hsplit, hl1, hpb⟩ := find?_eq_some_split hfind
  have hbid : b.id = bid := by simpa using hpb
  refine ⟨l1, l2, hsplit, hbid, ?_, ?_⟩
  · intro x hx
    have := hl1 x hx
    simpa using this
  · rw [hsplit] at hnd
    intro x hx
    rw [← hbid]
    exact nodup_ids_right l1 l2 b hnd x hx


theorem cancelSet_id (x : Booking) : (cancelSet x).id = x.id := rfl

theorem cancelClearSet_id (x : Booking) : (cancelClearSet x).id = x.id := rfl

theorem confirmSet_id (x : Booking) : (confirmSet x).id = x.id := rfl

theorem moveSet_id (qs qe expiry : Int) (x : Booking) :
    (moveSet qs qe expiry x).id = x.id := rfl

theorem goodState_admin_approve (s : SysState) (bid : Nat) (now : Int)
    (hg : GoodState s) :
    GoodState { s with bookings := (admin_approve s.bookings bid now).1 } := by
  unfold admin_approve
  cases hfind : findById s.bookings bid with
  | none => simpa using hg
  | some b =>
      simp only
      split_ifs with h1 h2 h3
      · exact goodState_updateById_le s bid cancelSet cancelSet_id
          (fun x t => by rw [show cancelSet x = { x with status := .cancelled } from rfl,
            contribAt_cancelled]; exact Nat.zero_le _) hg
      · obtain ⟨l1, l2, hsplit, hbid, hl1, hl2⟩ := split_of_findById hfind hg.2.1
        obtain ⟨hbound, hnd, hcap⟩ := hg
        refine ⟨idBounded_updateById _ _ _ confirmSet confirmSet_id hbound, ?_, ?_⟩
        · show ((updateById s.bookings bid confirmSet).map Booking.id).Nodup
          rw [updateById_map_id _ _ confirmSet confirmSet_id]
          exact hnd
        · intro t
          show occupancy (updateById s.bookings bid confirmSet) t ≤ MAX_SIMS
          rw [hsplit, updateById_split l1 l2 b bid confirmSet hl1 hl2 hbid,
            occupancy_append, occupancy_cons,
            show confirmSet b = { b with status := .confirmed, expires_at := none } from rfl,
            contribAt_confirm t b h2]
          have hc := hcap t
          rw [hsplit, occupancy_append, occupancy_cons] at hc
          exact hc
      · exact goodState_updateById_le s bid cancelSet cancelSet_id
          (fun x t => by rw [show cancelSet x = { x with status := .cancelled } from rfl,
            contribAt_cancelled]; exact Nat.zero_le _) hg
      · simpa using hg

theorem goodState_cancel_cmd (s : SysState) (bid uid : Nat) (now : Int)
    (hg : GoodState s) :
    GoodState { s with bookings := (cancel_cmd s.bookings bid uid now).1 } := by
  unfold cancel_cmd
  cases hfind : findById s.bookings bid with
  | none => simpa using hg
  | some b =>
      simp only
      split_ifs with h1 h2 h3
      · simpa using hg
      · simpa using hg
      · simpa using hg
      · exact goodState_updateById_le s bid cancelClearSet cancelClearSet_id
          (fun x t => by
            rw [show cancelClearSet x =
              { x with status := .cancelled, expires_at := none } from rfl,
              contribAt_cancelled_clear]
            exact Nat.zero_le _) hg

theorem goodState_edit_apply (s : SysState) (bid uid : Nat) (qs now : Int)
    (b : Booking) (hfind : findById s.bookings bid = some b) (hg : GoodState s) :
    GoodState { s with
      bookings := (edit_apply s.bookings bid uid qs b.duration b.sims now).1 } := by
  unfold edit_apply
  rw [hfind]
  simp only
  split_ifs with h1 h2 h3 h4
  · simpa using hg
  · simpa using hg
  · simpa using hg
  · simpa using hg
  · obtain ⟨l1, l2, hsplit, hbid, hl1, hl2⟩ := split_of_findById hfind hg.2.1
    obtain ⟨hbound, hnd, hcap⟩ := hg
    refine ⟨idBounded_updateById _ _ _ _ (moveSet_id _ _ _) hbound, ?_, ?_⟩
    · show ((updateById s.bookings bid _).map Booking.id).Nodup
      rw [updateById_map_id _ _ _ (moveSet_id qs (qs + (b.duration : Int)) (now + HOLD_MINUTES))]
      exact hnd
    · intro t
      show occupancy (updateById s.bookings bid
        (moveSet qs (qs + (b.duration : Int)) (now + HOLD_MINUTES))) t ≤ MAX_SIMS
      rw [hsplit, updateById_split l1 l2 b bid _ hl1 hl2 hbid,
        occupancy_append, occupancy_cons]
      by_cases hc : contribAt t (moveSet qs (qs + (b.duration : Int)) (now + HOLD_MINUTES) b) = 0
      · have hcs := hcap t
        rw [hsplit, occupancy_append, occupancy_cons] at hcs
        omega
      · obtain ⟨ht1, ht2, ht3, ht4⟩ := contribAt_eq_sims hc
        have ht1' : qs ≤ t := ht1
        have ht2' : t < qs + (b.duration : Int) := ht2
        have hocc12 : occupancy l1 t + occupancy l2 t ≤
            busySims (l1 ++ l2) qs (qs + (b.duration : Int)) none := by
          rw [← occupancy_append]
          exact occ_le_busySims _ ht1' ht2'
        have hcb : countsForQuery qs (qs + (b.duration : Int)) (some bid) b = false := by
          unfold countsForQuery
          simp [hbid]
        have hbusy : busySims s.bookings qs (qs + (b.duration : Int)) (some bid) =
            busySims (l1 ++ l2) qs (qs + (b.duration : Int)) none := by
          rw [hsplit, busySims_append, busySims_cons, hcb, busySims_append,
            busySims_excl_eq_none l1 _ _ _ hl1, busySims_excl_eq_none l2 _ _ _ hl2]
          simp
        have hfree : ¬ free_sims_for_interval s.bookings qs (qs + (b.duration : Int))
            (some bid) < (b.sims : Int) := by
          rw [← hbid]
          exact h4
        have hmax := busy_add_le_of_free_ge s.bookings qs (qs + (b.duration : Int))
          (some bid) b.sims hfree ht4
        have hsims : contribAt t (moveSet qs (qs + (b.duration : Int))
            (now + HOLD_MINUTES) b) = b.sims := ht3
        omega

theorem goodState_book_create_hold (s : SysState) (uid : Nat) (qs : Int)
    (dur sims price : Nat) (now : Int) (hg : GoodState s) :
    GoodState (book_create_hold s uid qs dur sims price now none none).1 := by
  unfold book_create_hold
  by_cases h1 : ¬(durationAllowed dur && decide (1 ≤ sims) && decide (sims ≤ MAX_SIMS))
  · rw [if_pos h1]
    exact hg
  · rw [if_neg h1]
    by_cases h2 : activeCountForUser s.bookings uid now ≥ MAX_ACTIVE_BOOKINGS_PER_USER
    · rw [if_pos h2]
      exact hg
    · rw [if_neg h2]
      by_cases h3 : free_sims_for_interval s.bookings qs (qs + (dur : Int)) none < (sims : Int)
      · rw [if_pos h3]
        exact hg
      · rw [if_neg h3]
        exact goodState_insert s
          { id := s.next_id, user_id := uid, client_name := none, client_phone := none,
            start_at := qs, end_at := qs + (dur : Int), sims := sims, duration := dur,
            price := price, status := .pending, expires_at := some (now + HOLD_MINUTES) }
          rfl hg h3

theorem goodState_block_cmd (s : SysState) (qs : Int) (dur sims : Nat)
    (hg : GoodState s) :
    GoodState (block_cmd s qs dur sims).1 := by
  unfold block_cmd
  by_cases h1 : ¬(durationAllowed dur && decide (1 ≤ sims) && decide (sims ≤ MAX_SIMS))
  · rw [if_pos h1]
    exact hg
  · rw [if_neg h1]
    by_cases h2 : free_sims_for_interval s.bookings qs (qs + (dur : Int)) none < (sims : Int)
    · rw [if_pos h2]
      exact hg
    · rw [if_neg h2]
      exact goodState_insert s
        { id := s.next_id, user_id := 0, client_name := some "block", client_phone := none,
          start_at := qs, end_at := qs + (dur : Int), sims := sims, duration := dur,
          price := 0, status := .block, expires_at := none }
        rfl hg h2

theorem goodState_applyOp (s : SysState) (op : Op) (hg : GoodState s) :
    GoodState (applyOp s op) := by
  cases op with
  | createHold uid qs dur sims price now =>
      exact goodState_book_create_hold s uid qs dur sims price now hg
  | confirm bid now => exact goodState_admin_approve s bid now hg
  | cancel bid uid now => exact goodState_cancel_cmd s bid uid now hg
  | edit bid uid qs now =>
      show GoodState (match findById s.bookings bid with
        | some b =>
            { s with bookings := (edit_apply s.bookings bid uid qs b.duration b.sims now).1 }
        | none => s)
      cases hfind : findById s.bookings bid with
      | none => exact hg
      | some b => exact goodState_edit_apply s bid uid qs now b hfind hg
  | blockIns qs dur sims => exact goodState_block_cmd s qs dur sims hg

theorem goodState_initState : GoodState initState := by
  refine ⟨?_, ?_, ?_⟩
  · intro b hb
    cases hb
  · exact List.nodup_nil
  · intro t
    simp [initState, occupancy, MAX_SIMS]

theorem goodState_foldl (ops : List Op) :
    ∀ s, GoodState s → GoodState (List.foldl applyOp s ops) := by
  induction ops with
  | nil => intro s hs; exact hs
  | cons op ops ih =>
      intro s hs
      exact ih _ (goodState_applyOp s op hs)

theorem goodState_runOps (ops : List Op) : GoodState (runOps ops) :=
  goodState_foldl ops initState goodState_initState

/-! ### Claim C1 -/

/-- C1: Capacity invariant — for every sequence of create-hold, confirm,
cancel, edit and block operations applied sequentially from an empty
ledger, and for every instant t, the sum of units (sims) over all
reservations whose status is in (pending, confirmed, block) and whose
half-open interval contains t never exceeds the pool capacity MAX_SIMS. -/
theorem capacity_invariant_sequential (ops : List Op) (t : Int) :
    occupancy (runOps ops).bookings t ≤ MAX_SIMS :=
  (goodState_runOps ops).2.2 t

/-! ### Claim C5 -/

/-- Modelled from the claim's words for C5: sum the units over all
reservations with status in the set (pending, confirmed, block)
satisfying res.start < end and res.end > start, excluding the given id
if present; the result is total capacity minus that sum, floored at 0. -/
def freeCapacitySpec (l : List Booking) (qs qe : Int) (excl : Option Nat) : Int :=
  max ((MAX_SIMS : Int) -
    l.foldl (fun acc x =>
      if (x.status = .pending ∨ x.status = .confirmed ∨ x.status = .block) ∧
          x.start_at < qe ∧ x.end_at > qs ∧ excl ≠ some x.id
      then acc + (x.sims : Int) else acc) 0) 0

theorem specCond_iff (qs qe : Int) (excl : Option Nat) (x : Booking) :
    ((x.status = .pending ∨ x.status = .confirmed ∨ x.status = .block) ∧
      x.start_at < qe ∧ x.end_at > qs ∧ excl ≠ some x.id)
    ↔ countsForQuery qs qe excl x = true := by
  have hmem : x.status ∈ ACTIVE_STATUSES ↔
      (x.status = .pending ∨ x.status = .confirmed ∨ x.status = .block) := by
    simp [ACTIVE_STATUSES]
  unfold countsForQuery
  cases excl with
  | none =>
      simp only [Bool.and_eq_true, decide_eq_true_eq, List.contains, List.elem_eq_mem,
        hmem]
      constructor
      · rintro ⟨hs, h1, h2, -⟩
        exact ⟨⟨⟨hs, h1⟩, h2⟩, trivial⟩
      · rintro ⟨⟨⟨hs, h1⟩, h2⟩, -⟩
        exact ⟨hs, h1, h2, by simp⟩
  | some i =>
      simp only [Bool.and_eq_true, decide_eq_true_eq, List.contains, List.elem_eq_mem,
        hmem, bne_iff_ne]
      constructor
      · rintro ⟨hs, h1, h2, h3⟩
        refine ⟨⟨⟨hs, h1⟩, h2⟩, fun he => h3 (by rw [he])⟩
      · rintro ⟨⟨⟨hs, h1⟩, h2⟩, h3⟩
        refine ⟨hs, h1, h2, fun he => h3 (Option.some.inj he).symm⟩

theorem foldl_busy (l : List Booking) (qs qe : Int) (excl : Option Nat) :
    ∀ a : Int,
      l.foldl (fun acc x =>
        if (x.status = .pending ∨ x.status = .confirmed ∨ x.status = .block) ∧
            x.start_at < qe ∧ x.end_at > qs ∧ excl ≠ some x.id
        then acc + (x.sims : Int) else acc) a
      = a + (busySims l qs qe excl : Int) := by
  induction l with
  | nil =>
      intro a
      simp [busySims]
  | cons b l ih =>
      intro a
      rw [List.foldl_cons, busySims_cons]
      by_cases hc : countsForQuery qs qe excl b = true
      · rw [if_pos ((specCond_iff qs qe excl b).mpr hc), ih, if_pos hc]
        push_cast
        ring
      · rw [if_neg (fun hp => hc ((specCond_iff qs qe excl b).mp hp)), ih, if_neg hc]
        simp

/-- C5: freeCapacity computation — for every half-open query interval
and optional excluded reservation id, free_sims_for_interval equals
MAX_SIMS minus the sum of units over reservations with status in
(pending, confirmed, block) satisfying res.start < end and
res.end > start, excluding the given id if present, floored at 0
(hence never negative). -/
theorem free_sims_matches_claim (l : List Booking) (qs qe : Int) (excl : Option Nat) :
    free_sims_for_interval l qs qe excl = freeCapacitySpec l qs qe excl ∧
      0 ≤ free_sims_for_interval l qs qe excl := by
  constructor
  · unfold free_sims_for_interval freeCapacitySpec
    rw [foldl_busy l qs qe excl 0, zero_add]
  · exact le_max_right _ _

/-! ### Claim C2 -/

theorem find?_cons_pos {α : Type} (p : α → Bool) (a : α) (l : List α)
    (h : p a = true) : (a :: l).find? p = some a :=
  List.find?_cons_of_pos l h

theorem find?_cons_neg {α : Type} (p : α → Bool) (a : α) (l : List α)
    (h : p a = false) : (a :: l).find? p = l.find? p :=
  List.find?_cons_of_neg l (by rw [h]; exact Bool.false_ne_true)

theorem findById_updateById (l : List Booking) (bid : Nat) (f : Booking → Booking)
    (hf : ∀ x, (f x).id = x.id) :
    findById (updateById l bid f) bid = (findById l bid).map f := by
  induction l with
  | nil => rfl
  | cons a l ih =>
      unfold findById updateById at ih ⊢
      by_cases ha : (a.id == bid) = true
      · simp only [List.map_cons]
        rw [if_pos ha,
          find?_cons_pos (fun b => b.id == bid) (f a) _
            (by show ((f a).id == bid) = true; rw [hf]; exact ha),
          find?_cons_pos (fun b => b.id == bid) a l ha]
        rfl
      · have ha' : (a.id == bid) = false := by simpa using ha
        simp only [List.map_cons]
        rw [if_neg ha, find?_cons_neg (fun b => b.id == bid) a _ ha',
          find?_cons_neg (fun b => b.id == bid) a l ha']
        exact ih

/-- Modelled from the claim's words for C2: the sum of units over all
OTHER reservations (excluding the target itself) with status in
(pending, confirmed, block) whose interval overlaps the target's
interval, two half-open intervals overlapping when each starts before
the other ends. -/
def overlapTakenSpec (l : List Booking) (b : Booking) : Nat :=
  ((l.filter (fun x => decide (x.id ≠ b.id ∧
      (x.status = .pending ∨ x.status = .confirmed ∨ x.status = .block) ∧
      x.start_at < b.end_at ∧ b.start_at < x.end_at))).map Booking.sims).sum

theorem overlapTakenSpec_eq (l : List Booking) (b : Booking) :
    overlapTakenSpec l b = busySims l b.start_at b.end_at (some b.id) := by
  unfold overlapTakenSpec busySims
  congr 1
  congr 1
  apply List.filter_congr
  intro x _
  by_cases hc : countsForQuery b.start_at b.end_at (some b.id) x = true
  · rw [hc]
    have h := (specCond_iff b.start_at b.end_at (some b.id) x).mpr hc
    obtain ⟨hs, h1, h2, h3⟩ := h
    have hid : x.id ≠ b.id := fun he => h3 (by rw [he])
    exact decide_eq_true ⟨hid, hs, h1, h2⟩
  · rw [Bool.eq_false_iff.mpr hc]
    apply decide_eq_false
    rintro ⟨hid, hs, h1, h2⟩
    exact hc ((specCond_iff b.start_at b.end_at (some b.id) x).mp
      ⟨hs, h1, h2, fun he => hid (Option.some.inj he).symm⟩)

/-- C2: Confirm capacity decision — when confirm is applied to a
reservation that is pending and whose hold has not expired, it sums
the units of all other reservations with status in (pending,
confirmed, block) whose interval overlaps the target's interval
(excluding the target itself), then sets the target confirmed and
clears its expiry when total capacity minus that sum is at least the
target's units, and otherwise sets the target cancelled. -/
theorem confirm_capacity_decision (l : List Booking) (bid : Nat) (now : Int)
    (b : Booking) (hfind : findById l bid = some b) (hp : b.status = .pending)
    (hne : expiredFlag b now = false) :
    admin_approve l bid now =
      if (MAX_SIMS : Int) - (overlapTakenSpec l b : Int) ≥ (b.sims : Int) then
        (updateById l bid confirmSet, .confirmedOk)
      else
        (updateById l bid cancelSet, .noCapacity) := by
  unfold admin_approve
  rw [hfind]
  simp only
  rw [if_neg (by rw [hne]; exact Bool.false_ne_true), if_pos hp, overlapTakenSpec_eq]

/-- Concrete exercise of confirm_capacity_decision: a lone pending,
unexpired reservation for 2 sims is confirmed and its expiry cleared. -/
def bC2 : Booking :=
  { id := 1, user_id := 7, client_name := none, client_phone := none,
    start_at := 100, end_at := 160, sims := 2, duration := 60, price := 690,
    status := .pending, expires_at := some 50 }

theorem confirm_capacity_decision_witness :
    admin_approve [bC2] 1 40 = (updateById [bC2] 1 confirmSet, .confirmedOk) := by
  have h := confirm_capacity_decision [bC2] 1 40 bC2 rfl rfl rfl
  rw [h, if_pos (by decide)]

/-! ### Claim C3 -/

/-- C3: Hold expiry blocks confirmation — a pending reservation whose
expires_at is earlier than the current time cannot become confirmed:
the confirm operation cancels it and reports the expired branch, and
the auto-confirm worker skips it, leaving the ledger unchanged. -/
theorem expired_hold_never_confirms (l : List Booking) (bid : Nat) (now : Int)
    (b : Booking) (e : Int) (hfind : findById l bid = some b)
    (hp : b.status = .pending) (he : b.expires_at = some e) (hlt : e < now) :
    admin_approve l bid now = (updateById l bid cancelSet, .expiredCancelled) ∧
      statusOf (admin_approve l bid now).1 bid = some .cancelled ∧
      autoconfirm_step l bid now = l := by
  have hexp : expiredFlag b now = true := by
    unfold expiredFlag
    rw [he]
    exact decide_eq_true hlt
  have h1 : admin_approve l bid now = (updateById l bid cancelSet, .expiredCancelled) := by
    unfold admin_approve
    rw [hfind]
    simp only
    rw [if_pos hexp]
  refine ⟨h1, ?_, ?_⟩
  · rw [h1]
    show statusOf (updateById l bid cancelSet) bid = some .cancelled
    unfold statusOf
    rw [findById_updateById l bid cancelSet cancelSet_id, hfind]
    rfl
  · unfold autoconfirm_step
    rw [hfind]
    simp only
    rw [if_neg (by rw [hp]; exact fun h => h rfl), if_pos hexp]

/-- Concrete exercise of expired_hold_never_confirms: a pending
reservation whose hold expired at 10 is cancelled by confirm at 20 and
skipped by the auto-confirm worker. -/
def bC3 : Booking :=
  { id := 1, user_id := 7, client_name := none, client_phone := none,
    start_at := 100, end_at := 160, sims := 2, duration := 60, price := 690,
    status := .pending, expires_at := some 10 }

theorem expired_hold_never_confirms_witness :
    admin_approve [bC3] 1 20 = (updateById [bC3] 1 cancelSet, .expiredCancelled) ∧
      statusOf (admin_approve [bC3] 1 20).1 1 = some .cancelled ∧
      autoconfirm_step [bC3] 1 20 = [bC3] :=
  expired_hold_never_confirms [bC3] 1 20 bC3 10 rfl rfl rfl (by decide)

/-! ### Claim C9 -/

/-- C9: Unconditional reject — for any existing reservation id, reject
sets the status to cancelled regardless of the current status and
time, leaves the expiry field untouched, and the only failure case is
a missing id. -/
theorem reject_unconditional (l : List Booking) (bid : Nat) :
    (findById l bid = none → admin_reject l bid = (l, .notFound)) ∧
      (∀ b, findById l bid = some b →
        admin_reject l bid = (updateById l bid cancelSet, .rejected) ∧
          findById (admin_reject l bid).1 bid = some (cancelSet b) ∧
          (cancelSet b).status = .cancelled ∧
          (cancelSet b).expires_at = b.expires_at) := by
  constructor
  · intro h
    unfold admin_reject
    rw [h]
  · intro b h
    have h1 : admin_reject l bid = (updateById l bid cancelSet, .rejected) := by
      unfold admin_reject
      rw [h]
    refine ⟨h1, ?_, rfl, rfl⟩
    rw [h1]
    show findById (updateById l bid cancelSet) bid = some (cancelSet b)
    rw [findById_updateById l bid cancelSet cancelSet_id, h]
    rfl

/-- Concrete exercise of reject_unconditional: a confirmed reservation
whose slot already started is still cancelled by reject, keeping its
expiry field. -/
def bC9 : Booking :=
  { id := 3, user_id := 7, client_name := none, client_phone := none,
    start_at := 100, end_at := 160, sims := 2, duration := 60, price := 690,
    status := .confirmed, expires_at := some 99 }

theorem reject_unconditional_witness :
    admin_reject [bC9] 3 = (updateById [bC9] 3 cancelSet, .rejected) ∧
      findById (admin_reject [bC9] 3).1 3 = some (cancelSet bC9) ∧
      (cancelSet bC9).status = .cancelled ∧
      (cancelSet bC9).expires_at = bC9.expires_at :=
  (reject_unconditional [bC9] 3).2 bC9 rfl

/-! ### Claim C10 -/

/-- C10: Per-user active-booking limit — when a user already has at
least MAX_ACTIVE_BOOKINGS_PER_USER (= 6) reservations with status
pending or confirmed ending in the future, the booking flow refuses to
create a hold, independently of available capacity. -/
theorem per_user_limit_refuses (s : SysState) (uid : Nat) (qs : Int)
    (dur sims price : Nat) (now : Int)
    (hcnt : activeCountForUser s.bookings uid now ≥ MAX_ACTIVE_BOOKINGS_PER_USER) :
    MAX_ACTIVE_BOOKINGS_PER_USER = 6 ∧
      (book_create_hold s uid qs dur sims price now none none).1 = s ∧
      ∀ bid, (book_create_hold s uid qs dur sims price now none none).2 ≠
        .created bid := by
  refine ⟨rfl, ?_⟩
  unfold book_create_hold
  by_cases h1 : ¬(durationAllowed dur && decide (1 ≤ sims) && decide (sims ≤ MAX_SIMS))
  · rw [if_pos h1]
    exact ⟨rfl, fun bid h => nomatch h⟩
  · rw [if_neg h1, if_pos hcnt]
    exact ⟨rfl, fun bid h => nomatch h⟩

/-- Concrete exercise of per_user_limit_refuses: user 7 already holds
six future pending or confirmed reservations, so a further request is
refused even though the requested window is completely free. -/
def c10Booking (i : Nat) : Booking :=
  { id := i, user_id := 7, client_name := none, client_phone := none,
    start_at := 100 * (i : Int), end_at := 100 * (i : Int) + 60, sims := 1,
    duration := 60, price := 690, status := .pending, expires_at := some 1000 }

def sC10 : SysState :=
  { bookings := [c10Booking 1, c10Booking 2, c10Booking 3, c10Booking 4,
      c10Booking 5, c10Booking 6], next_id := 7 }

theorem per_user_limit_refuses_witness :
    MAX_ACTIVE_BOOKINGS_PER_USER = 6 ∧
      (book_create_hold sC10 7 5000 60 1 690 0 none none).1 = sC10 ∧
      ∀ bid, (book_create_hold sC10 7 5000 60 1 690 0 none none).2 ≠
        .created bid :=
  per_user_limit_refuses sC10 7 5000 60 1 690 0 (by decide)

/-! ### Claim C8 -/

/-- Concrete input for C8: reservation 1 is already cancelled and its
start instant (10) has passed. -/
def bC8 : Booking :=
  { id := 1, user_id := 7, client_name := none, client_phone := none,
    start_at := 10, end_at := 70, sims := 1, duration := 60, price := 390,
    status := .cancelled, expires_at := none }

/-- C8 counterexample: at now = 20 past the start, cancelling the
already-cancelled reservation 1 reports the too-late error, not the
idempotent already-cancelled success, because cancel_cmd checks the
too-late guard first; so the claim's "for every current time" fails. -/
theorem cancel_already_cancelled_too_late :
    cancel_cmd [bC8] 1 7 20 = ([bC8], .tooLate) ∧
      CancelOutcome.tooLate ≠ CancelOutcome.alreadyCancelled := by
  exact ⟨by decide, fun h => nomatch h⟩

/-- C8 amended: for an existing reservation owned by the caller,
cancel succeeds only while now is strictly before the start instant,
setting status cancelled and clearing the expiry; cancelling an
already-cancelled reservation is a no-op success only while now is
before the start; once now reaches the start, every cancel attempt —
the already-cancelled case included — reports the too-late error. -/
theorem cancel_semantics_amended (l : List Booking) (bid uid : Nat) (now : Int)
    (b : Booking) (hfind : findById l bid = some b) (hu : b.user_id = uid) :
    (now ≥ b.start_at → cancel_cmd l bid uid now = (l, .tooLate)) ∧
      (now < b.start_at → b.status = .cancelled →
        cancel_cmd l bid uid now = (l, .alreadyCancelled)) ∧
      (now < b.start_at → b.status ≠ .cancelled →
        cancel_cmd l bid uid now = (updateById l bid cancelClearSet, .ok)) := by
  unfold cancel_cmd
  rw [hfind]
  simp only
  have hu' : ¬ b.user_id ≠ uid := fun h => h hu
  refine ⟨?_, ?_, ?_⟩
  · intro h
    rw [if_neg hu', if_pos h]
  · intro h hc
    rw [if_neg hu', if_neg (not_le.mpr h), if_pos hc]
  · intro h hc
    rw [if_neg hu', if_neg (not_le.mpr h), if_neg hc]

theorem cancel_semantics_amended_witness :
    cancel_cmd [bC8] 1 7 20 = ([bC8], .tooLate) ∧
      cancel_cmd [bC8] 1 7 5 = ([bC8], .alreadyCancelled) :=
  ⟨(cancel_semantics_amended [bC8] 1 7 20 bC8 rfl rfl).1 (by decide),
   (cancel_semantics_amended [bC8] 1 7 5 bC8 rfl rfl).2.1 (by decide) rfl⟩

/-! ### Claim C6 -/

/-- Concrete input for C6: a pending reservation of 4 sims on [20, 30)
whose hold expired at 5, observed at now = 10. -/
def bC6 : Booking :=
  { id := 1, user_id := 7, client_name := none, client_phone := none,
    start_at := 20, end_at := 30, sims := 4, duration := 10, price := 390,
    status := .pending, expires_at := some 5 }

/-- C6 counterexample: free_sims_for_interval performs no sweep — the
expired pending hold still counts, so the call reports 0 free sims
while a swept ledger reports 4, and the hold is still pending
afterwards (the function never writes). -/
theorem freeCapacity_does_not_sweep :
    free_sims_for_interval [bC6] 20 30 none = 0 ∧
      free_sims_for_interval (cleanup_expired_pending [bC6] 10) 20 30 none = 4 ∧
      statusOf [bC6] 1 = some .pending := by
  decide

theorem countsForQuery_cancelled (qs qe : Int) (excl : Option Nat) (b : Booking) :
    countsForQuery qs qe excl { b with status := .cancelled } = false := by
  have h : Status.cancelled ∉ ACTIVE_STATUSES := by decide
  unfold countsForQuery
  simp [h]

theorem busySims_cleanup_le (l : List Booking) (now qs qe : Int) (excl : Option Nat) :
    busySims (cleanup_expired_pending l now) qs qe excl ≤ busySims l qs qe excl := by
  induction l with
  | nil => exact le_refl _
  | cons b l ih =>
      show busySims (sweepOne now b :: cleanup_expired_pending l now) qs qe excl ≤ _
      rw [busySims_cons, busySims_cons]
      refine Nat.add_le_add ?_ ih
      unfold sweepOne
      cases hbe : b.expires_at with
      | none => exact le_refl _
      | some e =>
          simp only
          by_cases hcond : (b.status == Status.pending && decide (e < now)) = true
          · rw [if_pos hcond, ← hbe, countsForQuery_cancelled]
            simp
          · rw [if_neg hcond]

/-- C6 amended: the expired-hold sweep is not part of
free_sims_for_interval (which only reads); it is the separate
cleanup_expired_pending, run by the periodic cleanup worker and by the
day view.  After that sweep no expired pending hold remains, and the
sweep can only increase reported free capacity, so once it has run no
expired hold inflates occupancy. -/
theorem cleanup_sweeps_expired (l : List Booking) (now : Int) :
    (∀ b ∈ cleanup_expired_pending l now,
        ¬(b.status = .pending ∧ ∃ e, b.expires_at = some e ∧ e < now)) ∧
      ∀ qs qe excl, free_sims_for_interval l qs qe excl ≤
        free_sims_for_interval (cleanup_expired_pending l now) qs qe excl := by
  constructor
  · intro b hb
    obtain ⟨a, _, rfl⟩ := List.mem_map.mp hb
    rintro ⟨hp, e, hee, hlt⟩
    cases hae : a.expires_at with
    | none =>
        have hs : sweepOne now a = a := by
          unfold sweepOne
          rw [hae]
        rw [hs, hae] at hee
        cases hee
    | some e0 =>
        have hs : sweepOne now a =
            if a.status == Status.pending && decide (e0 < now) then
              { a with status := .cancelled } else a := by
          unfold sweepOne
          rw [hae]
        by_cases hcond : (a.status == Status.pending && decide (e0 < now)) = true
        · rw [hs, if_pos hcond] at hp
          exact nomatch hp
        · rw [hs, if_neg hcond] at hp hee
          rw [hae] at hee
          obtain rfl : e0 = e := Option.some.inj hee
          exact hcond (by simp [hp, hlt])
  · intro qs qe excl
    unfold free_sims_for_interval
    have h := busySims_cleanup_le l now qs qe excl
    have h2 : (MAX_SIMS : Int) - (busySims l qs qe excl : Int) ≤
        (MAX_SIMS : Int) - (busySims (cleanup_expired_pending l now) qs qe excl : Int) := by
      omega
    exact max_le_max h2 (le_refl 0)

theorem cleanup_sweeps_expired_witness :
    free_sims_for_interval [bC6] 20 30 none ≤
        free_sims_for_interval (cleanup_expired_pending [bC6] 10) 20 30 none ∧
      ¬((sweepOne 10 bC6).status = .pending ∧
        ∃ e, (sweepOne 10 bC6).expires_at = some e ∧ e < 10) :=
  ⟨(cleanup_sweeps_expired [bC6] 10).2 20 30 none,
   (cleanup_sweeps_expired [bC6] 10).1 (sweepOne 10 bC6)
     (List.mem_map.mpr ⟨bC6, List.mem_singleton_self bC6, rfl⟩)⟩

/-! ### Claim C4 -/

theorem cancelSet_of_cancelled (b : Booking) (hc : b.status = .cancelled) :
    cancelSet b = b := by
  unfold cancelSet
  cases b with
  | mk i u cn cp sa ea si du pr st ex =>
      simp only at hc
      rw [hc]

/-- C4: Confirm idempotence — a confirm on a reservation that is not
pending (and whose expiry is not set in the past) leaves the ledger
entirely unchanged and reports the current status; and running confirm
twice in a row (the second attempt at the same or a later instant, on
a well-formed ledger whose non-pending, non-cancelled rows carry no
expiry, as every code path maintains) leaves the ledger exactly as
after the first call, so both calls end in the same terminal status. -/
theorem confirm_idempotent (l : List Booking) (bid : Nat) (now now2 : Int)
    (hnd : (l.map Booking.id).Nodup)
    (hclean : ∀ x ∈ l, x.status ≠ .pending → x.status ≠ .cancelled →
      x.expires_at = none)
    (hle : now ≤ now2) :
    (∀ b, findById l bid = some b → b.status ≠ .pending →
      expiredFlag b now = false → admin_approve l bid now = (l, .unchanged b.status)) ∧
      (admin_approve (admin_approve l bid now).1 bid now2).1 =
        (admin_approve l bid now).1 := by
  constructor
  · intro b hfind hnp hne
    unfold admin_approve
    rw [hfind]
    simp only
    rw [if_neg (by rw [hne]; exact Bool.false_ne_true), if_neg hnp]
  · cases hfind : findById l bid with
    | none =>
        have h1 : admin_approve l bid now = (l, .notFound) := by
          unfold admin_approve
          rw [hfind]
        have h2 : admin_approve l bid now2 = (l, .notFound) := by
          unfold admin_approve
          rw [hfind]
        rw [h1, h2]
    | some b =>
        obtain ⟨l1, l2, hsplit, hbid, hl1, hl2⟩ := split_of_findById hfind hnd
        by_cases hexp : expiredFlag b now = true
        · have h1 : admin_approve l bid now =
              (updateById l bid cancelSet, .expiredCancelled) := by
            unfold admin_approve
            rw [hfind]
            simp only
            rw [if_pos hexp]
          have hfind2 : findById (updateById l bid cancelSet) bid =
              some (cancelSet b) := by
            rw [findById_updateById l bid cancelSet cancelSet_id, hfind]
            rfl
          have hexp2 : expiredFlag (cancelSet b) now2 = true := by
            unfold expiredFlag at hexp ⊢
            cases hbe : b.expires_at with
            | none =>
                rw [hbe] at hexp
                exact absurd hexp Bool.false_ne_true
            | some e =>
                rw [show (cancelSet b).expires_at = b.expires_at from rfl, hbe]
                rw [hbe] at hexp
                exact decide_eq_true (lt_of_lt_of_le (of_decide_eq_true hexp) hle)
          have h2 : admin_approve (updateById l bid cancelSet) bid now2 =
              (updateById (updateById l bid cancelSet) bid cancelSet,
                .expiredCancelled) := by
            unfold admin_approve
            rw [hfind2]
            simp only
            rw [if_pos hexp2]
          rw [h1, h2]
          show updateById (updateById l bid cancelSet) bid cancelSet =
            updateById l bid cancelSet
          rw [hsplit, updateById_split l1 l2 b bid cancelSet hl1 hl2 hbid,
            updateById_split l1 l2 (cancelSet b) bid cancelSet hl1 hl2 hbid]
          rfl
        · have hexp' : expiredFlag b now = false := by
            simpa using hexp
          by_cases hp : b.status = .pending
          · by_cases hcap : (MAX_SIMS : Int) -
                (busySims l b.start_at b.end_at (some b.id) : Int) ≥ (b.sims : Int)
            · have h1 : admin_approve l bid now =
                  (updateById l bid confirmSet, .confirmedOk) := by
                unfold admin_approve
                rw [hfind]
                simp only
                rw [if_neg (by rw [hexp']; exact Bool.false_ne_true), if_pos hp,
                  if_pos hcap]
              have hfind2 : findById (updateById l bid confirmSet) bid =
                  some (confirmSet b) := by
                rw [findById_updateById l bid confirmSet confirmSet_id, hfind]
                rfl
              have h2 : admin_approve (updateById l bid confirmSet) bid now2 =
                  (updateById l bid confirmSet,
                    .unchanged (confirmSet b).status) := by
                unfold admin_approve
                rw [hfind2]
                simp only
                have hef : expiredFlag (confirmSet b) now2 = false := rfl
                rw [if_neg (by rw [hef]; exact Bool.false_ne_true),
                  if_neg (show (confirmSet b).status ≠ .pending from fun h => nomatch h)]
              rw [h1, h2]
            · have h1 : admin_approve l bid now =
                  (updateById l bid cancelSet, .noCapacity) := by
                unfold admin_approve
                rw [hfind]
                simp only
                rw [if_neg (by rw [hexp']; exact Bool.false_ne_true), if_pos hp,
                  if_neg hcap]
              have hfind2 : findById (updateById l bid cancelSet) bid =
                  some (cancelSet b) := by
                rw [findById_updateById l bid cancelSet cancelSet_id, hfind]
                rfl
              rw [h1]
              by_cases hexp2 : expiredFlag (cancelSet b) now2 = true
              · have h2 : admin_approve (updateById l bid cancelSet) bid now2 =
                    (updateById (updateById l bid cancelSet) bid cancelSet,
                      .expiredCancelled) := by
                  unfold admin_approve
                  rw [hfind2]
                  simp only
                  rw [if_pos hexp2]
                rw [h2]
                show updateById (updateById l bid cancelSet) bid cancelSet =
                  updateById l bid cancelSet
                rw [hsplit, updateById_split l1 l2 b bid cancelSet hl1 hl2 hbid,
                  updateById_split l1 l2 (cancelSet b) bid cancelSet hl1 hl2 hbid]
                rfl
              · have h2 : admin_approve (updateById l bid cancelSet) bid now2 =
                    (updateById l bid cancelSet,
                      .unchanged (cancelSet b).status) := by
                  unfold admin_approve
                  rw [hfind2]
                  simp only
                  rw [if_neg hexp2,
                    if_neg (show (cancelSet b).status ≠ .pending from fun h => nomatch h)]
                rw [h2]
          · have h1 : admin_approve l bid now = (l, .unchanged b.status) := by
              unfold admin_approve
              rw [hfind]
              simp only
              rw [if_neg (by rw [hexp']; exact Bool.false_ne_true), if_neg hp]
            rw [h1]
            by_cases hc : b.status = .cancelled
            · by_cases hexp2 : expiredFlag b now2 = true
              · have h2 : admin_approve l bid now2 =
                    (updateById l bid cancelSet, .expiredCancelled) := by
                  unfold admin_approve
                  rw [hfind]
                  simp only
                  rw [if_pos hexp2]
                rw [h2]
                show updateById l bid cancelSet = l
                rw [hsplit, updateById_split l1 l2 b bid cancelSet hl1 hl2 hbid,
                  cancelSet_of_cancelled b hc]
              · have h2 : admin_approve l bid now2 = (l, .unchanged b.status) := by
                  unfold admin_approve
                  rw [hfind]
                  simp only
                  rw [if_neg hexp2, if_neg hp]
                rw [h2]
            · have hbmem : b ∈ l := by
                rw [hsplit]
                exact List.mem_append.mpr (Or.inr (List.mem_cons_self _ _))
              have hnone := hclean b hbmem hp hc
              have hexp2 : expiredFlag b now2 = false := by
                unfold expiredFlag
                rw [hnone]
              have h2 : admin_approve l bid now2 = (l, .unchanged b.status) := by
                unfold admin_approve
                rw [hfind]
                simp only
                rw [if_neg (by rw [hexp2]; exact Bool.false_ne_true), if_neg hp]
              rw [h2]

/-- Concrete exercise of confirm_idempotent: reservation 1 is pending
and unexpired at 40; the first confirm confirms it, the second confirm
at 45 changes nothing. -/
def bC4 : Booking :=
  { id := 1, user_id := 7, client_name := none, client_phone := none,
    start_at := 100, end_at := 160, sims := 2, duration := 60, price := 690,
    status := .pending, expires_at := some 50 }

theorem confirm_idempotent_witness :
    (admin_approve (admin_approve [bC4] 1 40).1 1 45).1 = (admin_approve [bC4] 1 40).1 :=
  (confirm_idempotent [bC4] 1 40 45 (by decide) (by decide) (by decide)).2

/-! ### Claim C7 -/

/-- utils.normalize_phone: keep the digits of the trimmed input;
under 10 digits yields the empty string; a 10-digit number starting
with 9 gains a leading 7; an 11-digit number starting with 8 has the
8 replaced by 7; the result is prefixed with a plus sign.  The two
source ifs run in sequence, but the first leaves an 11-digit string
starting with 7, on which the second cannot fire, so the chain below
is equivalent. -/
def normalize_phone (p : String) : String :=
  let digits := p.trim.toList.filter Char.isDigit
  if digits.length < 10 then ""
  else if digits.length = 10 && digits.head? == some '9' then
    String.mk ('+' :: '7' :: digits)
  else if digits.length = 11 && digits.head? == some '8' then
    String.mk ('+' :: '7' :: digits.tail)
  else String.mk ('+' :: digits)

/-- A row of the clients table, as used by client_service.py and
services/bonus_runtime.py.  The class itself is imported from db but
missing from db.py; the fields are the ones the source reads and
writes (tg_user_id, phone, name, total_bookings, total_spent,
bonus_balance), kept in ascending id order to model `ORDER BY id`
with `.first()`. -/
structure Client where
  id : Nat
  tg_user_id : Nat
  phone : Option String
  name : String
  total_bookings : Nat
  total_spent : Nat
  bonus_balance : Nat
deriving DecidableEq, Repr

/-- The bonus earned on a visit: `int(add_spent * BONUS_RATE)` with
`BONUS_RATE = 0.05`, modelled exactly as amount * 5 / 100 (the float
product agrees with the exact value at every input used below). -/
def earnedBonus (amount : Nat) : Nat := amount * 5 / 100

/-- services/bonus_runtime.upsert_client_stats: normalize the phone
(Python truthiness: an absent or empty raw phone yields no key, and an
empty normalization result falls back to the tg_user_id key), find the
first matching client, create one if missing, refresh its identity
fields, then add one booking, the spent amount, and the earned bonus.
Returns the client table, the earned bonus, and whether a row was
inserted. -/
def upsert_client_stats (cs : List Client) (next_cid tg : Nat)
    (name phone : Option String) (add_spent : Nat) :
    List Client × Nat × Bool :=
  let phone_norm : Option String :=
    match phone with
    | some p => if p = "" then none else some (normalize_phone p)
    | none => none
  let phoneKey : Option String :=
    match phone_norm with
    | some s => if s = "" then none else some s
    | none => none
  let q : Client → Bool := fun c =>
    match phoneKey with
    | some ph => c.phone == some ph
    | none => c.tg_user_id == tg
  let earned := earnedBonus add_spent
  let upd : Client → Client := fun c0 =>
    let c1 : Client :=
      { c0 with
        tg_user_id := tg,
        phone := (match phoneKey with | some ph => some ph | none => c0.phone),
        name := (match name with
          | some n => if n = "" then c0.name else n
          | none => c0.name) }
    { c1 with
      total_bookings := c1.total_bookings + 1,
      total_spent := c1.total_spent + add_spent,
      bonus_balance := c1.bonus_balance + earned }
  match cs.find? q with
  | some c => (cs.map (fun x => if x.id == c.id then upd x else x), earned, false)
  | none =>
      (cs ++ [upd { id := next_cid, tg_user_id := tg, phone := phone_norm,
                    name := (match name with | some n => n | none => ""),
                    total_bookings := 0, total_spent := 0, bonus_balance := 0 }],
        earned, true)

/-- Persistent state touched by the done-marking path: the bookings
table, the clients table, and the client autoincrement counter. -/
structure BonusState where
  bookings : List Booking
  clients : List Client
  next_cid : Nat
deriving Repr

/-- Row mutation of admin_mark_done lines 2224-2225. -/
def doneSet (x : Booking) : Booking := { x with status := .done, expires_at := none }

/-- botsim.apply_bonus_for_booking (lines 1336-1377): no effect unless
the booking is done; exit if the in-session bonus_applied attribute is
set; a non-positive amount only sets the attribute; otherwise credit
the client through upsert_client_stats and set the attribute.  The
attribute is the Python `getattr(booking, "bonus_applied", False)`:
the Booking model in db.py has NO bonus_applied column, so the
attribute exists only on the in-memory object and is never persisted —
a freshly loaded row always starts at false.  Returns the state, the
attribute after the call, and whether a credit happened. -/
def apply_bonus_for_booking (st : BonusState) (b : Booking)
    (bonus_applied : Bool) : BonusState × Bool × Bool :=
  if b.status ≠ .done then (st, bonus_applied, false)
  else if bonus_applied then (st, bonus_applied, false)
  else if b.price = 0 then (st, true, false)
  else
    let r := upsert_client_stats st.clients st.next_cid b.user_id
      b.client_name b.client_phone b.price
    ({ st with
       clients := r.1,
       next_cid := st.next_cid + (if r.2.2 then 1 else 0) }, true, true)

/-- Outcome of the admin done button. -/
inductive DoneOutcome where
  | notFound
  | notConfirmedState
  | tooEarly
  | done (credited : Bool)
deriving DecidableEq, Repr

/-- botsim.admin_mark_done (lines 2203-2230): legal from confirmed or
done once the slot has ended; sets status done, clears the expiry, and
runs apply_bonus_for_booking on the freshly loaded row — whose
bonus_applied attribute is the getattr default false, because the
column does not exist in the model. -/
def admin_mark_done (st : BonusState) (bid : Nat) (now : Int) :
    BonusState × DoneOutcome :=
  match findById st.bookings bid with
  | none => (st, .notFound)
  | some b =>
    if ¬(b.status = .confirmed ∨ b.status = .done) then (st, .notConfirmedState)
    else if now < b.end_at then (st, .tooEarly)
    else
      let r := apply_bonus_for_booking
        { st with bookings := updateById st.bookings bid doneSet }
        (doneSet b) false
      (r.1, .done r.2.2)

/-- Bonus balance the system reports for a Telegram user (first client
row by id with that tg_user_id, as in client_service.get_client_balance). -/
def clientBalance (st : BonusState) (tg : Nat) : Nat :=
  match st.clients.find? (fun c => c.tg_user_id == tg) with
  | some c => c.bonus_balance
  | none => 0

/-- Failing input for C7: booking 1, confirmed, price 690, slot ended
at 160, marked done twice at now = 200. -/
def bC7 : Booking :=
  { id := 1, user_id := 7, client_name := none, client_phone := none,
    start_at := 100, end_at := 160, sims := 2, duration := 60, price := 690,
    status := .confirmed, expires_at := none }

def stC7 : BonusState := { bookings := [bC7], clients := [], next_cid := 1 }

/-- C7 fails on the code: because db.py's Booking has no bonus_applied
column, the guard in apply_bonus_for_booking reads false on every
fresh load, so marking the same booking done twice credits the 5%
bonus twice — the balance goes 0, 34, 68 instead of stopping at 34,
and the second call still reports that it credited. -/
theorem double_done_credits_twice :
    clientBalance (admin_mark_done stC7 1 200).1 7 = 34 ∧
      clientBalance (admin_mark_done (admin_mark_done stC7 1 200).1 1 200).1 7 = 68 ∧
      (admin_mark_done (admin_mark_done stC7 1 200).1 1 200).2 = .done true := by
  decide

/-! ### Reachability of the C4 side conditions -/

/-- Expiry hygiene: decided rows other than cancelled ones carry no
expiry.  Every code path that leaves pending state either clears
expires_at or moves to cancelled, so this holds of every reachable
ledger. -/
def ExpiryClean (l : List Booking) : Prop :=
  ∀ x ∈ l, x.status ≠ .pending → x.status ≠ .cancelled → x.expires_at = none

theorem expiryClean_applyOp (s : SysState) (op : Op) (hg : GoodState s)
    (hc : ExpiryClean s.bookings) : ExpiryClean (applyOp s op).bookings := by
  have hupd_cancel : ∀ bid, ExpiryClean (updateById s.bookings bid cancelSet) := by
    intro bid x hx hp hcx
    obtain ⟨a, ha, rfl⟩ := List.mem_map.mp hx
    by_cases hm : (a.id == bid) = true
    · rw [if_pos hm] at hp hcx ⊢
      exact absurd rfl hcx
    · rw [if_neg hm] at hp hcx ⊢
      exact hc a ha hp hcx
  have hupd_cancelClear : ∀ bid, ExpiryClean (updateById s.bookings bid cancelClearSet) := by
    intro bid x hx hp hcx
    obtain ⟨a, ha, rfl⟩ := List.mem_map.mp hx
    by_cases hm : (a.id == bid) = true
    · rw [if_pos hm] at hp hcx ⊢
      exact absurd rfl hcx
    · rw [if_neg hm] at hp hcx ⊢
      exact hc a ha hp hcx
  have hupd_confirm : ∀ bid, ExpiryClean (updateById s.bookings bid confirmSet) := by
    intro bid x hx hp hcx
    obtain ⟨a, ha, rfl⟩ := List.mem_map.mp hx
    by_cases hm : (a.id == bid) = true
    · rw [if_pos hm]
      rfl
    · rw [if_neg hm] at hp hcx ⊢
      exact hc a ha hp hcx
  cases op with
  | createHold uid qs dur sims price now =>
      show ExpiryClean (book_create_hold s uid qs dur sims price now none none).1.bookings
      unfold book_create_hold
      by_cases h1 : ¬(durationAllowed dur && decide (1 ≤ sims) && decide (sims ≤ MAX_SIMS))
      · rw [if_pos h1]
        exact hc
      · rw [if_neg h1]
        by_cases h2 : activeCountForUser s.bookings uid now ≥ MAX_ACTIVE_BOOKINGS_PER_USER
        · rw [if_pos h2]
          exact hc
        · rw [if_neg h2]
          by_cases h3 : free_sims_for_interval s.bookings qs (qs + (dur : Int)) none <
              (sims : Int)
          · rw [if_pos h3]
            exact hc
          · rw [if_neg h3]
            intro x hx hp hcx
            rcases List.mem_append.mp hx with hx | hx
            · exact hc x hx hp hcx
            · rw [List.mem_singleton.mp hx] at hp
              exact absurd rfl hp
  | confirm bid now =>
      show ExpiryClean (admin_approve s.bookings bid now).1
      unfold admin_approve
      cases hfind : findById s.bookings bid with
      | none => exact hc
      | some b =>
          simp only
          split_ifs with h1 h2 h3
          · exact hupd_cancel bid
          · exact hupd_confirm bid
          · exact hupd_cancel bid
          · exact hc
  | cancel bid uid now =>
      show ExpiryClean (cancel_cmd s.bookings bid uid now).1
      unfold cancel_cmd
      cases hfind : findById s.bookings bid with
      | none => exact hc
      | some b =>
          simp only
          split_ifs with h1 h2 h3
          · exact hc
          · exact hc
          · exact hc
          · exact hupd_cancelClear bid
  | edit bid uid qs now =>
      show ExpiryClean (match findById s.bookings bid with
        | some b =>
            { s with bookings := (edit_apply s.bookings bid uid qs b.duration b.sims now).1 }
        | none => s).bookings
      cases hfind : findById s.bookings bid with
      | none => exact hc
      | some b =>
          show ExpiryClean (edit_apply s.bookings bid uid qs b.duration b.sims now).1
          unfold edit_apply
          rw [hfind]
          simp only
          split_ifs with h1 h2 h3 h4
          · exact hc
          · exact hc
          · exact hc
          · exact hc
          · obtain ⟨l1, l2, hsplit, hbid, hl1, hl2⟩ := split_of_findById hfind hg.2.1
            have hbp : b.status = .pending := not_not.mp h2
            rw [hsplit, updateById_split l1 l2 b bid _ hl1 hl2 hbid]
            intro x hx hp hcx
            rcases List.mem_append.mp hx with hx | hx
            · exact hc x (by rw [hsplit]; exact List.mem_append.mpr (Or.inl hx)) hp hcx
            · rcases List.mem_cons.mp hx with rfl | hx
              · rw [show (moveSet qs (qs + (b.duration : Int)) (now + HOLD_MINUTES) b).status
                  = b.status from rfl, hbp] at hp
                exact absurd rfl hp
              · exact hc x (by
                  rw [hsplit]
                  exact List.mem_append.mpr (Or.inr (List.mem_cons_of_mem _ hx))) hp hcx
  | blockIns qs dur sims =>
      show ExpiryClean (block_cmd s qs dur sims).1.bookings
      unfold block_cmd
      by_cases h1 : ¬(durationAllowed dur && decide (1 ≤ sims) && decide (sims ≤ MAX_SIMS))
      · rw [if_pos h1]
        exact hc
      · rw [if_neg h1]
        by_cases h2 : free_sims_for_interval s.bookings qs (qs + (dur : Int)) none <
            (sims : Int)
        · rw [if_pos h2]
          exact hc
        · rw [if_neg h2]
          intro x hx hp hcx
          rcases List.mem_append.mp hx with hx | hx
          · exact hc x hx hp hcx
          · rw [List.mem_singleton.mp hx]

theorem expiryClean_runOps (ops : List Op) : ExpiryClean (runOps ops).bookings := by
  have h : ∀ s, GoodState s → ExpiryClean s.bookings →
      GoodState (List.foldl applyOp s ops) ∧
        ExpiryClean (List.foldl applyOp s ops).bookings := by
    induction ops with
    | nil => exact fun s hg hc => ⟨hg, hc⟩
    | cons op ops ih =>
        intro s hg hc
        exact ih _ (goodState_applyOp s op hg) (expiryClean_applyOp s op hg hc)
  exact (h initState goodState_initState (fun x hx => absurd hx (List.not_mem_nil x))).2
